import Mathlib

/-!
Verification of the ollama-agent streaming chat client.

This file gives a shallow embedding of the core of the repository:

* `src/utils.ts` — the `AbortableAsyncIterator` class wrapping the chunked
  response channel of the inference server (`runIter` below);
* `src/runLLM.ts` / `src/logger.ts` — the `runLLM`, `runLLMChat`,
  `contextedChat` and `contextedChat_` drafts of the contexted chat
  orchestrator (prompt validation, context loading, request assembly,
  stream driving and history persistence);
* the SQLite history table used by the orchestrator drafts (an append-only
  rowid table holding JSON records, scanned in rowid order).

Theorems settle the frozen claims about the natural-language specification.
-/

namespace OllamaAgent

/-- A chat message, as in the `Message` type of the ollama package used by
the repository: a role (`user` or `assistant`) and a content string. -/
structure Message where
  role : String
  content : String
deriving DecidableEq, Repr

/-- One response chunk of the streamed reply, as pulled from the underlying
channel in `src/utils.ts`.  For chat and generate streams the terminal flag
is `done`; progress streams (pull, push, create) instead report a `status`
field whose terminal value is the string `success`.  Chat chunks carry no
`status` field, which we embed as `none`. -/
structure Chunk where
  content : String
  done : Bool
  status : Option String
deriving DecidableEq, Repr

/-- A message delivered by the underlying channel: either a proper chunk or
an error payload `{error: string}` (the `ErrorResponse` interface of
`src/utils.ts`, recognised by the `error in message` test). -/
inductive SourceMsg where
  | msg (c : Chunk)
  | err (e : String)
deriving DecidableEq, Repr

/-- How the underlying channel terminates after delivering its messages.
`exhausted` embeds the generator finishing normally.  `aborted` embeds the
cancellation handle firing: `AbortableAsyncIterator.abort` in `src/utils.ts`
aborts the shared `AbortController` (see `src/abortController.ts`), which
makes the fetch-backed channel of the inference collaborator stop with an
abort exception instead of delivering further chunks.  That channel lives in
the external ollama package, so its abort behaviour is embedded from the
specification of the collaborator, not from `src/`. -/
inductive SourceEnd where
  | exhausted
  | aborted
deriving DecidableEq, Repr

/-- How one full iteration of the `AbortableAsyncIterator` ends. -/
inductive IterOutcome where
  /-- A terminal chunk was pulled: the `doneCallback` ran and iteration
  returned normally. -/
  | completed
  /-- An error payload was pulled: `throw new Error(message.error)`. -/
  | streamError (e : String)
  /-- The channel exhausted with no terminal chunk:
  `throw new Error(did not receive done or success response in stream)`. -/
  | incompleteStream
  /-- The cancellation handle fired mid-stream and the abort exception of
  the underlying channel propagated out of the for-await loop. -/
  | aborted
deriving DecidableEq, Repr

/-- Observable result of driving the `AbortableAsyncIterator` to its end:
the chunks it yielded in order, the outcome, the number of times the
registered `doneCallback` ran, and the number of messages pulled from the
underlying channel. -/
structure IterResult where
  yielded : List Chunk
  outcome : IterOutcome
  callbackCount : Nat
  pulled : Nat
deriving DecidableEq, Repr

/-- The terminal test of `src/utils.ts` line 35:
`(message as any).done || (message as any).status === success`. -/
def isTerminal (c : Chunk) : Bool :=
  c.done || c.status == some "success"

/-- The async iterator body of `AbortableAsyncIterator` (`src/utils.ts`
lines 27 to 41), run over a channel that delivers `msgs` in order and then
terminates with `ending`.  Each loop step pulls one message; an error
payload throws before anything is yielded; otherwise the chunk is yielded
and, if terminal, the callback runs and iteration returns; if the loop
drains the channel without a terminal chunk, the incomplete-stream error is
thrown. -/
def runIter : List SourceMsg → SourceEnd → IterResult
  | [], .exhausted => ⟨[], .incompleteStream, 0, 0⟩
  | [], .aborted => ⟨[], .aborted, 0, 0⟩
  | .err e :: _, _ => ⟨[], .streamError e, 0, 1⟩
  | .msg c :: rest, ending =>
    if isTerminal c then
      ⟨[c], .completed, 1, 1⟩
    else
      let r := runIter rest ending
      ⟨c :: r.yielded, r.outcome, r.callbackCount, r.pulled + 1⟩

/-- A message of the channel that is a chunk and not a terminal one: the
shape of everything delivered before the cancellation point in a mid-stream
abort, or delivered by a channel that never terminates its stream. -/
def isPlainMsg : SourceMsg → Bool
  | .msg c => !(isTerminal c)
  | .err _ => false

/-- A message of a chat stream: chat responses carry no `status` field, so
a chunk embeds with `status = none`; error payloads can occur on any
stream. -/
def isChatMsg : SourceMsg → Bool
  | .msg c => c.status.isNone
  | .err _ => true

/-- Left fold of chunk contents onto an accumulator: the running
`fullContent` buffer of the orchestrator drafts. -/
def concatFrom (full : String) (l : List Chunk) : String :=
  l.foldl (fun acc c => acc ++ c.content) full

/-- The stream-driving loop shared by `contextedChat` (`src/logger.ts`
lines 181 to 198) and `contextedChat_` (`src/runLLM.ts` lines 374 to 396):
for each yielded part, append a non-empty content to the `fullContent`
buffer, and on a part with `done = true` overwrite its content with the
buffer and record it as the assistant turn.  Returns the final buffer and
the recorded assistant content, if any. -/
def drive : List Chunk → String → Option String → String × Option String
  | [], full, rec => (full, rec)
  | c :: rest, full, rec =>
    let full1 := if c.content = "" then full else full ++ c.content
    let rec1 := if c.done then some full1 else rec
    drive rest full1 rec1

/-- A JSON value, as stored in the history and context tables: the drafts
stringify records such as `{message: {role, content}}` (the new prompt) and
whole chat responses, store them through the `jsonb` SQL function, and read
them back through the `->` and `->>` json path operators.  `null` also
stands for the undefined result of projecting an absent property. -/
inductive Json where
  | null
  | bool (b : Bool)
  | str (s : String)
  | obj (fields : List (String × Json))

/-- Property lookup on a JSON object — the `->` path operator, and equally
the JavaScript property access on a row object; absent keys and non-object
values give nothing. -/
def Json.get : Json → String → Option Json
  | .obj fields, key => fields.lookup key
  | _, _ => none

/-- The record written for the new prompt by both orchestrator drafts:
`JSON.stringify({message: {role, content}})`. -/
def encodePromptRecord (m : Message) : Json :=
  .obj [("message", .obj [("role", .str m.role), ("content", .str m.content)])]

/-- The two-step text extraction `record -> message ->> field` used by the
history and context SELECT statements; SQL NULL on a missing path. -/
def extractText (record : Json) (field : String) : Json :=
  match (record.get "message").bind (fun m => m.get field) with
  | some (.str s) => .str s
  | _ => .null

/-- The row produced for one stored record by the SELECT of
`contextedChat` (`src/logger.ts` lines 148 to 153) and of `contextedChat_`
(`src/runLLM.ts` lines 361 to 366): a flat object with the aliased columns
`role` and `content`. -/
def selectTurnRow (record : Json) : Json :=
  .obj [("role", extractText record "role"), ("content", extractText record "content")]

/-- How `contextedChat` in `src/logger.ts` uses a selected row: the row is
taken directly as a `Message` (the cast `as Message[]`), its `role` and
`content` columns being the fields of the turn. -/
def rowToMessage (row : Json) : Option Message :=
  match row.get "role", row.get "content" with
  | some (.str r), some (.str c) => some ⟨r, c⟩
  | _, _ => none

/-- How `contextedChat_` in `src/runLLM.ts` line 373 threads a selected row
into the request: the destructuring `fun ({message}) => message` projects
the `message` property of the row, giving the undefined value when the row
has no such property. -/
def threadRowProjection (row : Json) : Json :=
  (row.get "message").getD .null

/-- The history table: the rowid B-tree of the SQLite table
`history (prompt text)` (and likewise `context (rowid, response text)`),
holding rows keyed by their autoincrement rowid.  Kept in key order, as the
B-tree stores them; a bare SELECT scans it in that order. -/
structure HistoryTable where
  rows : List (Nat × Json)
  nextRowid : Nat

/-- A fresh empty table, first rowid 1 as in SQLite. -/
def emptyTable : HistoryTable := ⟨[], 1⟩

/-- Every stored key is below the next rowid to be handed out. -/
def HistoryTable.wf (t : HistoryTable) : Prop :=
  ∀ p ∈ t.rows, p.1 < t.nextRowid

instance (t : HistoryTable) : Decidable t.wf :=
  inferInstanceAs (Decidable (∀ p ∈ t.rows, p.1 < t.nextRowid))

/-- Key-ordered insertion into the B-tree content. -/
def insertSorted : List (Nat × Json) → Nat × Json → List (Nat × Json)
  | [], p => [p]
  | q :: rest, p => if p.1 < q.1 then p :: q :: rest else q :: insertSorted rest p

/-- The INSERT of one record: it is stored under the next autoincrement
rowid, which is then bumped. -/
def insertRecord (t : HistoryTable) (r : Json) : HistoryTable :=
  ⟨insertSorted t.rows (t.nextRowid, r), t.nextRowid + 1⟩

/-- A sequence of appended exchanges, oldest first. -/
def insertAll (t : HistoryTable) (rs : List Json) : HistoryTable :=
  rs.foldl insertRecord t

/-- The bare `select ... from history` of the drafts: a full scan of the
table, returning the stored records in rowid order. -/
def selectAllRecords (t : HistoryTable) : List Json :=
  t.rows.map Prod.snd

/-- The errors of the current invocation that the orchestrator drafts can
raise before the stream is consumed: the failed precondition assertion on
the prompt, and an unhandled store failure. -/
inductive ChatError where
  | invalidArgument
  | storeUnavailable (e : String)
deriving DecidableEq, Repr

/-- The observable effects of one orchestrator invocation up to the point
where the chat request is handed to the inference collaborator: the records
inserted into the history table in order, the ordered messages of the
issued chat request if one was issued, and the error that ended the
invocation early, if any. -/
structure OrchRun where
  inserted : List Json
  request : Option (List Message)
  failure : Option ChatError

/-- The `contextedChat` draft of `src/logger.ts` lines 139 to 180: assert
the prompt is a non-empty string; select the prior turns from the history
table, catching a read failure and continuing with the empty context;
insert the new prompt record; then call `runLLMChat`, which issues the chat
request with the loaded context followed by the new user message.
`storeRead` is the outcome of the SELECT against the store. -/
def contextedChatLogger (prompt : String)
    (storeRead : Except String (List Message)) : OrchRun :=
  if prompt = "" then ⟨[], none, some .invalidArgument⟩
  else
    let oldPrompts := match storeRead with
      | .ok ms => ms
      | .error _ => []
    ⟨[encodePromptRecord ⟨"user", prompt⟩],
      some (oldPrompts ++ [⟨"user", prompt⟩]), none⟩

/-- The `contextedChat` draft of `src/runLLM.ts` lines 280 to 331: assert
the prompt is a non-empty string; select the prior turns from the history
table with no catch, so a read failure propagates and fails the invocation
before anything is written; insert the new prompt record; then call
`runLLMChat` with `context: []`, so the issued request holds only the new
user message whatever the loaded history was. -/
def contextedChatRunLLM (prompt : String)
    (storeRead : Except String (List Message)) : OrchRun :=
  if prompt = "" then ⟨[], none, some .invalidArgument⟩
  else
    match storeRead with
    | .error e => ⟨[], none, some (.storeUnavailable e)⟩
    | .ok _oldPrompts =>
      ⟨[encodePromptRecord ⟨"user", prompt⟩],
        some ([] ++ [⟨"user", prompt⟩]), none⟩

end OllamaAgent

namespace OllamaAgent

/-- C2. On every run of the iterator over any channel contents and any
channel ending: the completion callback runs exactly once when the run
completes on a terminal chunk and never otherwise; exactly one yielded
chunk is terminal in a completed run and none in any other run; and no
yielded chunk other than the last one is ever terminal, so nothing is
yielded after the terminal chunk. -/
theorem iterator_terminal_contract (msgs : List SourceMsg) (ending : SourceEnd) :
    (runIter msgs ending).callbackCount
        = (if (runIter msgs ending).outcome = IterOutcome.completed then 1 else 0)
      ∧ (runIter msgs ending).yielded.countP isTerminal
        = (if (runIter msgs ending).outcome = IterOutcome.completed then 1 else 0)
      ∧ (runIter msgs ending).yielded.dropLast.countP isTerminal = 0 := by
  induction msgs with
  | nil =>
    cases ending <;> simp [runIter]
  | cons m rest ih =>
    cases m with
    | err e => simp [runIter]
    | msg c =>
      by_cases hc : isTerminal c = true
      · simp [runIter, hc]
      · have hc' : isTerminal c = false := by simpa using hc
        obtain ⟨ih1, ih2, ih3⟩ := ih
        refine ⟨?_, ?_, ?_⟩
        · simpa [runIter, hc'] using ih1
        · simpa [runIter, hc', List.countP_cons, hc] using ih2
        · rcases hy : (runIter rest ending).yielded with _ | ⟨y, ys⟩
          · simp [runIter, hc', hy]
          · rw [hy] at ih3
            simp [runIter, hc', hy, List.countP_cons, hc]
            simpa using ih3

/-- C3. If the cancellation handle fires mid-stream — the channel delivers
only plain non-terminal chunks and then stops with the abort exception —
iteration ends with the distinct `aborted` outcome: the completion callback
never runs and the incomplete-stream error is not raised. -/
theorem abort_mid_stream_no_callback (msgs : List SourceMsg)
    (h : msgs.all isPlainMsg = true) :
    (runIter msgs SourceEnd.aborted).outcome = IterOutcome.aborted
      ∧ (runIter msgs SourceEnd.aborted).callbackCount = 0 := by
  induction msgs with
  | nil => simp [runIter]
  | cons m rest ih =>
    cases m with
    | err e => simp [isPlainMsg] at h
    | msg c =>
      rw [List.all_cons] at h
      have hc : isTerminal c = false := by
        have := (Bool.and_eq_true _ _).mp h |>.1
        simpa [isPlainMsg] using this
      have hrest := ih ((Bool.and_eq_true _ _).mp h |>.2)
      exact ⟨by simpa [runIter, hc] using hrest.1, by simpa [runIter, hc] using hrest.2⟩

/-- Witness for C3 at a concrete mid-stream abort: two plain content chunks
are delivered, then the abort fires. -/
theorem abort_mid_stream_no_callback_witness :
    ([SourceMsg.msg ⟨"Hel", false, none⟩, SourceMsg.msg ⟨"lo", false, none⟩].all
        isPlainMsg = true)
      ∧ ((runIter [SourceMsg.msg ⟨"Hel", false, none⟩, SourceMsg.msg ⟨"lo", false, none⟩]
            SourceEnd.aborted).outcome = IterOutcome.aborted
        ∧ (runIter [SourceMsg.msg ⟨"Hel", false, none⟩, SourceMsg.msg ⟨"lo", false, none⟩]
            SourceEnd.aborted).callbackCount = 0) :=
  ⟨by decide,
    abort_mid_stream_no_callback
      [SourceMsg.msg ⟨"Hel", false, none⟩, SourceMsg.msg ⟨"lo", false, none⟩] (by decide)⟩

/-- C4. If the channel delivers an error payload after any run of plain
chunks, iteration fails with the stream error carrying exactly the message
reported by the server, the completion callback never runs, and nothing is
pulled from the channel past the error payload, whatever follows it and
however the channel would end. -/
theorem error_chunk_stops_stream (pre : List SourceMsg) (e : String)
    (rest : List SourceMsg) (ending : SourceEnd)
    (h : pre.all isPlainMsg = true) :
    (runIter (pre ++ SourceMsg.err e :: rest) ending).outcome = IterOutcome.streamError e
      ∧ (runIter (pre ++ SourceMsg.err e :: rest) ending).callbackCount = 0
      ∧ (runIter (pre ++ SourceMsg.err e :: rest) ending).pulled = pre.length + 1 := by
  induction pre with
  | nil => simp [runIter]
  | cons m pre ih =>
    cases m with
    | err e0 => simp [isPlainMsg] at h
    | msg c =>
      rw [List.all_cons] at h
      have hc : isTerminal c = false := by
        have := (Bool.and_eq_true _ _).mp h |>.1
        simpa [isPlainMsg] using this
      have hrest := ih ((Bool.and_eq_true _ _).mp h |>.2)
      refine ⟨?_, ?_, ?_⟩
      · simpa [runIter, hc] using hrest.1
      · simpa [runIter, hc] using hrest.2.1
      · have hstep : (runIter ((SourceMsg.msg c :: pre) ++ SourceMsg.err e :: rest) ending).pulled
            = (runIter (pre ++ SourceMsg.err e :: rest) ending).pulled + 1 := by
          simp [runIter, hc]
        rw [hstep, hrest.2.2, List.length_cons]

/-- Witness for C4: scenario D of the specification, an error payload
`model not found` delivered as the first message of the stream, with a
further chunk behind it that is never pulled. -/
theorem error_chunk_stops_stream_witness :
    (([] : List SourceMsg).all isPlainMsg = true)
      ∧ ((runIter ([] ++ SourceMsg.err "model not found"
              :: [SourceMsg.msg ⟨"x", true, none⟩]) SourceEnd.exhausted).outcome
            = IterOutcome.streamError "model not found"
        ∧ (runIter ([] ++ SourceMsg.err "model not found"
              :: [SourceMsg.msg ⟨"x", true, none⟩]) SourceEnd.exhausted).callbackCount = 0
        ∧ (runIter ([] ++ SourceMsg.err "model not found"
              :: [SourceMsg.msg ⟨"x", true, none⟩]) SourceEnd.exhausted).pulled
            = List.length ([] : List SourceMsg) + 1) :=
  ⟨by decide,
    error_chunk_stops_stream [] "model not found"
      [SourceMsg.msg ⟨"x", true, none⟩] SourceEnd.exhausted (by decide)⟩

/-- C5. If the channel exhausts — including immediately, with the empty
stream — without ever delivering a terminal chunk or an error payload,
iteration fails with the incomplete-stream error and the completion
callback never runs. -/
theorem exhausted_without_terminal_incomplete (msgs : List SourceMsg)
    (h : msgs.all isPlainMsg = true) :
    (runIter msgs SourceEnd.exhausted).outcome = IterOutcome.incompleteStream
      ∧ (runIter msgs SourceEnd.exhausted).callbackCount = 0 := by
  induction msgs with
  | nil => simp [runIter]
  | cons m rest ih =>
    cases m with
    | err e => simp [isPlainMsg] at h
    | msg c =>
      rw [List.all_cons] at h
      have hc : isTerminal c = false := by
        have := (Bool.and_eq_true _ _).mp h |>.1
        simpa [isPlainMsg] using this
      have hrest := ih ((Bool.and_eq_true _ _).mp h |>.2)
      exact ⟨by simpa [runIter, hc] using hrest.1, by simpa [runIter, hc] using hrest.2⟩

/-- Witness for C5 at the empty stream, the edge case the claim singles
out: the channel ends at once and iteration reports the incomplete-stream
error with no callback run. -/
theorem exhausted_without_terminal_incomplete_witness :
    (([] : List SourceMsg).all isPlainMsg = true)
      ∧ ((runIter [] SourceEnd.exhausted).outcome = IterOutcome.incompleteStream
        ∧ (runIter [] SourceEnd.exhausted).callbackCount = 0) :=
  ⟨by decide, exhausted_without_terminal_incomplete [] (by decide)⟩

/-- On a chat stream a completed iteration yields a run of not-done chunks
closed by one chunk with `done = true`: chat chunks carry no `status`
field, so the dual terminal test of the iterator reduces to the `done`
flag. -/
theorem runIter_completed_struct (msgs : List SourceMsg) (ending : SourceEnd)
    (hchat : msgs.all isChatMsg = true)
    (hdone : (runIter msgs ending).outcome = IterOutcome.completed) :
    ∃ pre fin, (runIter msgs ending).yielded = pre ++ [fin]
      ∧ fin.done = true ∧ ∀ c ∈ pre, c.done = false := by
  induction msgs with
  | nil =>
    cases ending <;> simp [runIter] at hdone
  | cons m rest ih =>
    cases m with
    | err e => simp [runIter] at hdone
    | msg c =>
      rw [List.all_cons] at hchat
      have hcchat : c.status = none := by
        have := (Bool.and_eq_true _ _).mp hchat |>.1
        simpa [isChatMsg, Option.isNone_iff_eq_none] using this
      have hterm : isTerminal c = c.done := by
        simp [isTerminal, hcchat]
      by_cases hc : isTerminal c = true
      · refine ⟨[], c, ?_, ?_, by simp⟩
        · simp [runIter, hc]
        · rw [← hterm]; exact hc
      · have hc' : isTerminal c = false := by simpa using hc
        have hdone' : (runIter rest ending).outcome = IterOutcome.completed := by
          simpa [runIter, hc'] using hdone
        obtain ⟨pre, fin, hy, hfin, hpre⟩ :=
          ih ((Bool.and_eq_true _ _).mp hchat |>.2) hdone'
        refine ⟨c :: pre, fin, ?_, hfin, ?_⟩
        · simp [runIter, hc', hy]
        · intro x hx
          rcases List.mem_cons.mp hx with hx | hx
          · subst hx; rw [← hterm]; exact hc'
          · exact hpre x hx

/-- The first component of the driving loop is the fold of the chunk
contents onto the starting buffer: skipping an empty content changes
nothing, since appending the empty string is the identity. -/
theorem drive_fst (l : List Chunk) (full : String) (rec : Option String) :
    (drive l full rec).1 = concatFrom full l := by
  induction l generalizing full rec with
  | nil => rfl
  | cons c rest ih =>
    show (drive rest (if c.content = "" then full else full ++ c.content) _).1
      = concatFrom (full ++ c.content) rest
    by_cases hc : c.content = ""
    · rw [if_pos hc, hc, String.append_empty]
      exact ih full _
    · rw [if_neg hc]
      exact ih _ _

/-- Driving a run of not-done chunks closed by one done chunk records the
fold of every content onto the starting buffer, whatever was recorded
before. -/
theorem drive_records (pre : List Chunk) (fin : Chunk) (full : String)
    (rec : Option String) (hpre : ∀ c ∈ pre, c.done = false)
    (hfin : fin.done = true) :
    (drive (pre ++ [fin]) full rec).2 = some (concatFrom full (pre ++ [fin])) := by
  induction pre generalizing full rec with
  | nil =>
    show (drive [] (if fin.content = "" then full else full ++ fin.content)
        (if fin.done then some _ else rec)).2 = some (concatFrom full [fin])
    by_cases hc : fin.content = ""
    · simp [drive, hfin, hc, concatFrom, String.append_empty]
    · simp [drive, hfin, hc, concatFrom]
  | cons c rest ih =>
    have hc : c.done = false := hpre c (List.mem_cons_self c rest)
    have hrest : ∀ x ∈ rest, x.done = false := fun x hx => hpre x (List.mem_cons_of_mem c hx)
    show (drive (rest ++ [fin]) (if c.content = "" then full else full ++ c.content)
        (if c.done then some _ else rec)).2 = some (concatFrom (full ++ c.content) (rest ++ [fin]))
    rw [hc]
    by_cases hcc : c.content = ""
    · rw [if_pos hcc, hcc, String.append_empty]
      simpa using ih full rec hrest
    · rw [if_neg hcc]
      simpa using ih (full ++ c.content) rec hrest

/-- C6. For every chat stream on which the iteration completes — it is
neither aborted nor failed — the assistant content recorded at finalization
by the orchestrator loop equals the concatenation, in receipt order, of the
content fields of all yielded chunks up to and including the final one. -/
theorem recorded_content_is_concat (msgs : List SourceMsg) (ending : SourceEnd)
    (hchat : msgs.all isChatMsg = true)
    (hdone : (runIter msgs ending).outcome = IterOutcome.completed) :
    (drive (runIter msgs ending).yielded "" none).2
      = some (concatFrom "" (runIter msgs ending).yielded) := by
  obtain ⟨pre, fin, hy, hfin, hpre⟩ := runIter_completed_struct msgs ending hchat hdone
  rw [hy]
  exact drive_records pre fin "" none hpre hfin

/-- Witness for C6: scenario A of the specification, the stream delivering
a content chunk `Hi` and then an empty terminal chunk; the recorded
assistant content is `Hi`, the concatenation of the yielded contents. -/
theorem recorded_content_is_concat_witness :
    ([SourceMsg.msg ⟨"Hi", false, none⟩, SourceMsg.msg ⟨"", true, none⟩].all
        isChatMsg = true)
      ∧ (runIter [SourceMsg.msg ⟨"Hi", false, none⟩, SourceMsg.msg ⟨"", true, none⟩]
          SourceEnd.exhausted).outcome = IterOutcome.completed
      ∧ (drive (runIter [SourceMsg.msg ⟨"Hi", false, none⟩, SourceMsg.msg ⟨"", true, none⟩]
            SourceEnd.exhausted).yielded "" none).2
        = some (concatFrom ""
            (runIter [SourceMsg.msg ⟨"Hi", false, none⟩, SourceMsg.msg ⟨"", true, none⟩]
              SourceEnd.exhausted).yielded) :=
  ⟨by decide, by decide,
    recorded_content_is_concat
      [SourceMsg.msg ⟨"Hi", false, none⟩, SourceMsg.msg ⟨"", true, none⟩]
      SourceEnd.exhausted (by decide) (by decide)⟩

/-- C1. Evaluation of the `contextedChat` draft of `src/runLLM.ts` at a
store holding two prior turns and the prompt `Hello`: the issued chat
request holds only the new user message, not the loaded history followed by
the new message — the draft loads and logs the prior turns, then passes an
empty context to `runLLMChat`. -/
theorem contextedChat_ignores_loaded_history :
    (contextedChatRunLLM "Hello"
        (.ok [⟨"user", "hi"⟩, ⟨"assistant", "hey"⟩])).request
      = some [⟨"user", "Hello"⟩]
    ∧ some [(⟨"user", "Hello"⟩ : Message)]
      ≠ some [(⟨"user", "hi"⟩ : Message), ⟨"assistant", "hey"⟩, ⟨"user", "Hello"⟩] :=
  ⟨rfl, by decide⟩

/-- C7. An empty prompt fails the precondition assertion of the contexted
chat at once: the invocation ends with the invalid-argument failure, no
record is inserted into the store and no chat request is issued, whatever
the store would have answered; and every non-empty prompt passes the
check — the invocation never ends with the invalid-argument failure. -/
theorem empty_prompt_rejected_before_effects (prompt : String)
    (storeRead : Except String (List Message)) :
    (prompt = "" → contextedChatRunLLM prompt storeRead
        = ⟨[], none, some ChatError.invalidArgument⟩)
    ∧ (prompt ≠ "" → (contextedChatRunLLM prompt storeRead).failure
        ≠ some ChatError.invalidArgument) := by
  constructor
  · intro h
    simp [contextedChatRunLLM, h]
  · intro h
    cases storeRead with
    | error e => simp [contextedChatRunLLM, h]
    | ok ms => simp [contextedChatRunLLM, h]

/-- Witness for C7: the empty prompt is rejected with no store insert and
no request, and the prompt `Hello` passes the precondition check. -/
theorem empty_prompt_rejected_before_effects_witness :
    (contextedChatRunLLM "" (.ok []) = ⟨[], none, some ChatError.invalidArgument⟩)
    ∧ (contextedChatRunLLM "Hello" (.ok [])).failure ≠ some ChatError.invalidArgument :=
  ⟨(empty_prompt_rejected_before_effects "" (.ok [])).1 rfl,
    (empty_prompt_rejected_before_effects "Hello" (.ok [])).2 (by decide)⟩

/-- C8. When the SELECT of the prior turns fails, the contexted chat of
`src/logger.ts` does not fail the turn: the read failure is caught, the new
prompt is still recorded, and the chat request is issued with the empty
context — only the new user message. -/
theorem store_read_failure_degrades (prompt e : String) (h : prompt ≠ "") :
    contextedChatLogger prompt (.error e)
      = ⟨[encodePromptRecord ⟨"user", prompt⟩], some [⟨"user", prompt⟩], none⟩ := by
  simp [contextedChatLogger, h]

/-- Witness for C8: the store is unreachable while the prompt `Hello` is
asked; the turn proceeds with only the new prompt in the request. -/
theorem store_read_failure_degrades_witness :
    contextedChatLogger "Hello" (.error "database disk image is malformed")
      = ⟨[encodePromptRecord ⟨"user", "Hello"⟩], some [⟨"user", "Hello"⟩], none⟩ :=
  store_read_failure_degrades "Hello" "database disk image is malformed" (by decide)

/-- Inserting under a key above every stored key lands at the end of the
key-ordered rows. -/
theorem insertSorted_append (rows : List (Nat × Json)) (k : Nat) (r : Json)
    (h : ∀ q ∈ rows, q.1 < k) :
    insertSorted rows (k, r) = rows ++ [(k, r)] := by
  induction rows with
  | nil => rfl
  | cons q rest ih =>
    have hq : q.1 < k := h q (List.mem_cons_self _ _)
    have hk : ¬ k < q.1 := by omega
    simp only [insertSorted, hk, if_false, List.cons_append, List.cons.injEq, true_and]
    exact ih (fun x hx => h x (List.mem_cons_of_mem _ hx))

/-- The INSERT keeps the table well formed. -/
theorem insertRecord_wf (t : HistoryTable) (r : Json) (h : t.wf) :
    (insertRecord t r).wf := by
  have hrows : (insertRecord t r).rows = t.rows ++ [(t.nextRowid, r)] := by
    unfold insertRecord
    rw [insertSorted_append t.rows t.nextRowid r h]
  intro p hp
  rw [hrows] at hp
  have hnext : (insertRecord t r).nextRowid = t.nextRowid + 1 := rfl
  rw [hnext]
  rcases List.mem_append.mp hp with hp | hp
  · exact Nat.lt_succ_of_lt (h p hp)
  · rw [List.mem_singleton.mp hp]
    exact Nat.lt_succ_self _

/-- One INSERT appends its record at the end of the scan. -/
theorem insertRecord_select (t : HistoryTable) (r : Json) (h : t.wf) :
    selectAllRecords (insertRecord t r) = selectAllRecords t ++ [r] := by
  unfold selectAllRecords insertRecord
  rw [insertSorted_append t.rows t.nextRowid r h]
  simp

/-- C9. For every well-formed table and every sequence of appended
records, scanning the table after the appends returns everything already
stored followed by the appended records, in insertion order, oldest first:
a record appended earlier is always observed before one appended later. -/
theorem select_returns_insertion_order (t : HistoryTable) (rs : List Json)
    (h : t.wf) :
    selectAllRecords (insertAll t rs) = selectAllRecords t ++ rs := by
  induction rs generalizing t with
  | nil => simp [insertAll, selectAllRecords]
  | cons r rest ih =>
    have h1 : (insertRecord t r).wf := insertRecord_wf t r h
    have hfold : insertAll t (r :: rest) = insertAll (insertRecord t r) rest := rfl
    rw [hfold, ih (insertRecord t r) h1, insertRecord_select t r h]
    simp

/-- Witness for C9: two exchange records appended to the fresh table are
read back in insertion order. -/
theorem select_returns_insertion_order_witness :
    emptyTable.wf
    ∧ selectAllRecords (insertAll emptyTable
        [encodePromptRecord ⟨"user", "hi"⟩, encodePromptRecord ⟨"assistant", "hey"⟩])
      = selectAllRecords emptyTable
        ++ [encodePromptRecord ⟨"user", "hi"⟩, encodePromptRecord ⟨"assistant", "hey"⟩] :=
  ⟨by decide,
    select_returns_insertion_order emptyTable
      [encodePromptRecord ⟨"user", "hi"⟩, encodePromptRecord ⟨"assistant", "hey"⟩]
      (by decide)⟩

/-- C10. Evaluation at a stored turn record: the SELECT row of the stored
record does decode back to the stored role and content — the extraction
inverts the encoding, and `contextedChat` in `src/logger.ts` threads that
row directly — but the threading of `contextedChat_` in `src/runLLM.ts`
projects the absent `message` property of the flat row, so what it threads
into the next request is the undefined value, not the stored turn. -/
theorem threading_projects_absent_field :
    rowToMessage (selectTurnRow (encodePromptRecord ⟨"user", "hi"⟩))
      = some ⟨"user", "hi"⟩
    ∧ threadRowProjection (selectTurnRow (encodePromptRecord ⟨"user", "hi"⟩))
      = Json.null
    ∧ Json.null ≠ Json.obj [("role", Json.str "user"), ("content", Json.str "hi")] :=
  ⟨rfl, rfl, fun h => Json.noConfusion h⟩

end OllamaAgent
